import Mathlib

/-!
Shallow embedding of the spiralknights_bot market-scraper scripts
(`cmain.py`, `main.py`, `headless_main.py`, `bid_analyzer.py`) together with
proofs about the data handling they implement: ingestion deduplication,
checkpoint persistence, navigation confirmation, page partitioning,
time-left parsing and per-item statistics.
-/

/-- A stored sale record as appended by `process_history_items` in
`cmain.py` (lines 211-215) and `headless_main.py` (lines 241-245):
the dict `{"price": ..., "timestamp": ..., "type": "sale"}`. -/
structure SaleEntry where
  price : Nat
  timestamp : String
  type : String
deriving DecidableEq

/-- An extracted history item as built by `extract_history_items` in
`cmain.py` (lines 189-193): the dict `{"name", "price", "datetime"}`. -/
structure Item where
  name : String
  price : Nat
  datetime : String
deriving DecidableEq

/-- `self.item_db`: a `defaultdict(list)` mapping item names to sale
histories, modelled as a total function with default `[]`. -/
abbrev ItemDB := String → List SaleEntry

def emptyDB : ItemDB := fun _ => []

/-- Mutation of one key of the `defaultdict`. -/
def updateDB (db : ItemDB) (name : String) (h : List SaleEntry) : ItemDB :=
  fun n => if n = name then h else db n

/-- The duplicate test of `cmain.py` line 209 / `headless_main.py` line 239:
`entry["timestamp"] == item["datetime"] and entry["price"] == item["price"]`. -/
def matchesTriple (e : SaleEntry) (it : Item) : Bool :=
  e.timestamp == it.datetime && e.price == it.price

/-- One iteration of the loop of `process_history_items`
(`cmain.py` lines 207-215): skip the item if some existing entry of the
item's history has the same timestamp and price, otherwise append
`{"price": item["price"], "timestamp": item["datetime"], "type": "sale"}`. -/
def ingestOne (db : ItemDB) (it : Item) : ItemDB :=
  let existing := db it.name
  if existing.any (fun e => matchesTriple e it) then db
  else updateDB db it.name (existing ++ [⟨it.price, it.datetime, "sale"⟩])

/-- `SKMarketScraper.process_history_items` of `cmain.py` (lines 202-215)
and `headless_main.py` (lines 236-245): fold `ingestOne` over the batch. -/
def process_history_items (db : ItemDB) (items : List Item) : ItemDB :=
  items.foldl ingestOne db

/-- A sequence of ingest calls: one `process_history_items` call per batch
(as in `headless_main.py` line 142, once per scraped page). -/
def processBatches (db : ItemDB) (batches : List (List Item)) : ItemDB :=
  batches.foldl process_history_items db

/-- The dedup invariant of the spec: no item history holds two records
with the same (timestamp, price); the item name is fixed by the key. -/
def NoDupTriples (db : ItemDB) : Prop :=
  ∀ name, (db name).Pairwise
    (fun a b => ¬(a.timestamp = b.timestamp ∧ a.price = b.price))

/-- The item's triple is already represented in the database. -/
def hasTriple (db : ItemDB) (it : Item) : Prop :=
  (db it.name).any (fun e => matchesTriple e it) = true

/-- A stored sale record as appended by `process_history_items` in
`main.py` (lines 276-283): the dict with keys `price`, `price_per_unit`,
`quantity`, `status`, `timestamp`, `type`. -/
structure MainEntry where
  price : Nat
  price_per_unit : ℚ
  quantity : Nat
  status : String
  timestamp : String
  type : String
deriving DecidableEq

/-- An extracted history item as built by `extract_history_items` in
`main.py` (lines 245-252). -/
structure MainItem where
  name : String
  quantity : Nat
  price : Nat
  status : String
  datetime : String
  price_per_unit : ℚ
deriving DecidableEq

abbrev MainDB := String → List MainEntry

def emptyMainDB : MainDB := fun _ => []

def updateMainDB (db : MainDB) (name : String) (h : List MainEntry) : MainDB :=
  fun n => if n = name then h else db n

/-- `SKMarketScraper.process_history_items` of `main.py` (lines 263-283).
For each item the datetime string is parsed with
`datetime.strptime(..., '%m/%d/%Y %I:%M:%S %p')`, then with `'%m/%d/%Y'` on
failure, falling back to `datetime.now()`; the resulting record is appended
unconditionally (no duplicate check). The two `strptime` attempts (an
external datetime library, composed into one partial map to the stored
`isoformat()` string) are the parameter `strptime2`, and the impure
`datetime.now().isoformat()` fallback is the per-iteration oracle `now`. -/
def process_history_items_main (strptime2 : String → Option String)
    (now : Nat → String) (db : MainDB) (items : List MainItem) : MainDB :=
  items.enum.foldl (fun db p =>
    let item := p.2
    let ts := (strptime2 item.datetime).getD (now p.1)
    updateMainDB db item.name (db item.name ++
      [⟨item.price, item.price_per_unit, item.quantity, item.status, ts, "sale"⟩])) db

/-- The on-disk state of `sk_market_data/item_database.json`, with the
serialized JSON modelled by its parsed content. `truncated` is a file
whose bytes are not a complete serialization (zero bytes right after an
`open(path, 'w')`, or an interrupted `json.dump`): `json.load` raises on
it. -/
inductive FileState (α : Type) where
  | absent
  | truncated
  | complete (db : α)

/-- `SKMarketScraper.save_item_database` (`cmain.py` lines 62-69,
`headless_main.py` lines 65-72) under crash semantics. The code runs
`open(db_path, 'w')` (which truncates the file in place) and then
`json.dump(self.item_db, f, indent=2)`; there is no temporary file and no
rename. `crashAt` selects the crash point: `0` = before the `open`,
`1` = after the truncating `open` but before the dump completes,
`2` or more = the call runs to completion. -/
def save_item_database_crash (prior : FileState ItemDB) (db : ItemDB)
    (crashAt : Nat) : FileState ItemDB :=
  match crashAt with
  | 0 => prior
  | 1 => FileState.truncated
  | _ + 2 => FileState.complete db

/-- Modelled from the spec: the atomic write discipline it prescribes for
`checkpoint` (write to a temporary location, then rename over the prior
file), stated as its observable guarantee: at every crash point the file
holds either the prior state or the complete new serialization. -/
def atomicWriteSpec
    (save : FileState ItemDB → ItemDB → Nat → FileState ItemDB) : Prop :=
  ∀ prior db crashAt,
    save prior db crashAt = prior ∨
      save prior db crashAt = FileState.complete db

/-- `SKMarketScraper.load_item_database` (`cmain.py` lines 48-60): if the
file does not exist, return an empty `defaultdict(list)`; on any exception
(unreadable JSON, I/O error — `ioError` models an exception raised while
the file itself holds a valid serialization) log and return an empty
`defaultdict(list)`; otherwise return the parsed mapping. -/
def load_item_database (file : FileState ItemDB) (ioError : Bool) : ItemDB :=
  match file with
  | FileState.absent => emptyDB
  | FileState.truncated => emptyDB
  | FileState.complete db => if ioError then emptyDB else db

/-- One run of the scraper as it touches the database file: load at
start-up (`__init__`, `cmain.py` line 24), ingest the scraped batches,
and `save_item_database` run to completion — but only when something was
scraped: `cmain.py` lines 131-137 (`if all_history_items:`) and
`main.py` lines 168-171 guard both the processing and the save on a
nonempty item list, and `headless_main.py` lines 134-143 saves only for
pages whose batch is nonempty. With nothing scraped the file is never
touched. -/
def runAndSaveDatabase (file : FileState ItemDB) (ioError : Bool)
    (batches : List (List Item)) : FileState ItemDB :=
  if batches.flatten = [] then file
  else
    save_item_database_crash file
      (processBatches (load_item_database file ioError) batches) 2

/-- Python's `sorted` on a list of ints (ascending, stable), as used by
`statistics.median`; insertion sort. -/
def insertLe (x : Nat) : List Nat → List Nat
  | [] => [x]
  | y :: ys => if x ≤ y then x :: y :: ys else y :: insertLe x ys

def pySorted (l : List Nat) : List Nat := l.foldr insertLe []

/-- `statistics.median` as called by `get_item_stats` on a non-empty list
of int prices: sort; odd length takes the middle element, even length the
mean of the two middle elements (true division, modelled exactly in ℚ). -/
def pyMedian (l : List Nat) : ℚ :=
  let s := pySorted l
  let n := l.length
  if n % 2 = 1 then (s.getD (n / 2) 0 : ℚ)
  else ((s.getD (n / 2 - 1) 0 : ℚ) + (s.getD (n / 2) 0 : ℚ)) / 2

/-- Python's `min` over a non-empty int list, head and tail. -/
def pyMin (x : Nat) (xs : List Nat) : Nat := xs.foldl Nat.min x

/-- Python's `max` over a non-empty int list, head and tail. -/
def pyMax (x : Nat) (xs : List Nat) : Nat := xs.foldl Nat.max x

/-- The stats dict built by `get_item_stats` (`cmain.py` lines 234-240).
The float results of `sum/len` and `statistics.median` are modelled
exactly in ℚ. -/
@[ext]
structure ItemStats where
  average_price : ℚ
  median_price : ℚ
  min_price : Nat
  max_price : Nat
  last_sold : SaleEntry
deriving DecidableEq

/-- `SKMarketScraper.get_item_stats` (`cmain.py` lines 230-241,
`headless_main.py` lines 260-271): `None` when the name is not a key of
`item_db` or its history is empty (both give an empty lookup in the
`defaultdict` model); otherwise the stats over the price column. The
`else None` of the source's `last_sold` line is unreachable because the
empty case already returned. -/
def get_item_stats (db : ItemDB) (name : String) : Option ItemStats :=
  match db name with
  | [] => none
  | e :: es =>
    let prices : List Nat := (e :: es).map (fun entry => entry.price)
    some {
      average_price := (prices.sum : ℚ) / (prices.length : ℚ)
      median_price := pyMedian prices
      min_price := pyMin e.price (es.map (fun entry => entry.price))
      max_price := pyMax e.price (es.map (fun entry => entry.price))
      last_sold := (e :: es).getLast (List.cons_ne_nil e es)
    }

/-- ASCII model of Python's whitespace class (`str.strip` default set and
the regex class `\s`). -/
def isPySpace (c : Char) : Bool :=
  c = ' ' || c = '\t' || c = '\n' || c = '\r' || c = '\x0b' || c = '\x0c'

/-- Python `str.strip()` (ASCII model). -/
def pyStrip (s : String) : String :=
  String.mk (((s.toList.dropWhile isPySpace).reverse.dropWhile isPySpace).reverse)

/-- Python `str.lower()` (ASCII model). -/
def pyLower (s : String) : String := String.mk (s.toList.map Char.toLower)

def digitVal (c : Char) : Nat := c.toNat - '0'.toNat

def digitsToNat (ds : List Char) : Nat :=
  ds.foldl (fun a c => a * 10 + digitVal c) 0

/-- `re.search`: try the position matcher at each start position from the
left; first success wins. The patterns used here cannot match the empty
string, and their greedy `\d+`/`\s*`/`\s+` runs never need backtracking
(a shortened digit run would leave a digit where only whitespace or a
fixed letter may follow), so maximal-run matching is faithful. -/
def searchAux (f : List Char → Option Nat) : List Char → Option Nat
  | [] => f []
  | c :: cs =>
    match f (c :: cs) with
    | some r => some r
    | none => searchAux f cs

/-- Position matcher for `(\d+)\s*h` and `(\d+)\s*m`
(`bid_analyzer.py` lines 55-56), with `unit` the trailing letter. -/
def matchNumUnitAt (unit : Char) (cs : List Char) : Option Nat :=
  let ds := cs.takeWhile Char.isDigit
  if ds.isEmpty then none
  else
    match (cs.dropWhile Char.isDigit).dropWhile isPySpace with
    | c :: _ => if c = unit then some (digitsToNat ds) else none
    | [] => none

def searchNumUnit (unit : Char) (s : String) : Option Nat :=
  searchAux (matchNumUnitAt unit) s.toList

/-- Underscore-separated digit groups after the first digit, as accepted
inside Python `int(...)` literals (`1_000`; no doubled, leading or
trailing underscore). -/
def digitsUnd : List Char → Bool
  | [] => true
  | '_' :: c :: cs => c.isDigit && digitsUnd cs
  | c :: cs => c.isDigit && digitsUnd cs

def validPyIntDigits : List Char → Bool
  | [] => false
  | c :: cs => c.isDigit && digitsUnd cs

/-- Python `int(raw)` on an already-stripped string (ASCII model):
optional sign, then digits with optional single underscores between them;
`None` models the `ValueError` branch. -/
def pyInt (s : String) : Option Int :=
  match s.toList with
  | '-' :: rest =>
    if validPyIntDigits rest then
      some (-(digitsToNat (rest.filter Char.isDigit) : Int))
    else none
  | '+' :: rest =>
    if validPyIntDigits rest then
      some ((digitsToNat (rest.filter Char.isDigit) : Int))
    else none
  | rest =>
    if validPyIntDigits rest then
      some ((digitsToNat (rest.filter Char.isDigit) : Int))
    else none

/-- `AuctionEvaluator.parse_time_left` (`bid_analyzer.py` lines 44-68):
strip and lowercase; `"-"` and `"very short"` give 0; otherwise add
60 times the `(\d+)\s*h` capture and the `(\d+)\s*m` capture; if neither
matched, fall back to `int(raw)`, and on `ValueError` log a warning and
return 0. -/
def parse_time_left (time_text : String) : Int :=
  let raw := pyLower (pyStrip time_text)
  if raw = "-" ∨ raw = "very short" then 0
  else
    let hour_match := searchNumUnit 'h' raw
    let minute_match := searchNumUnit 'm' raw
    if hour_match.isNone && minute_match.isNone then
      match pyInt raw with
      | some n => n
      | none => 0
    else
      (hour_match.getD 0 : Int) * 60 + (minute_match.getD 0 : Int)

/-- Position matcher for `re.search(r'Page (\d+)', text)`
(`bid_analyzer.py` line 178): the integer following the literal
`"Page "`. -/
def matchPageAt (cs : List Char) : Option Nat :=
  match cs with
  | 'P' :: 'a' :: 'g' :: 'e' :: ' ' :: rest =>
    let ds := rest.takeWhile Char.isDigit
    if ds.isEmpty then none else some (digitsToNat ds)
  | _ => none

def parsePageNum (s : String) : Option Nat := searchAux matchPageAt s.toList

/-- Position matcher for `re.search(r'Page \d+\s+of\s+(\d+)', text)`
(`bid_analyzer.py` line 144). -/
def matchTotalAt (cs : List Char) : Option Nat :=
  match cs with
  | 'P' :: 'a' :: 'g' :: 'e' :: ' ' :: rest =>
    let ds1 := rest.takeWhile Char.isDigit
    if ds1.isEmpty then none
    else
      let r1 := (rest.dropWhile Char.isDigit)
      if (r1.takeWhile isPySpace).isEmpty then none
      else
        match r1.dropWhile isPySpace with
        | 'o' :: 'f' :: r2 =>
          if (r2.takeWhile isPySpace).isEmpty then none
          else
            let ds2 := (r2.dropWhile isPySpace).takeWhile Char.isDigit
            if ds2.isEmpty then none else some (digitsToNat ds2)
        | _ => none
  | _ => none

def parseTotalPages (s : String) : Option Nat := searchAux matchTotalAt s.toList

/-- What one iteration of the pagination loop of
`AuctionEvaluator.evaluate_all_auctions` (`bid_analyzer.py` lines 149-186)
observes from the driver. `listings` is the result of
`extract_listings_from_page` on whatever the session displays (row
extraction itself is driver work, kept abstract in `L`); `nextButton` is
`none` when the wait for / query of the Next button fails (lines 161-164,
184-186), and `some d` with `d` the presence of a `disabled` attribute
(lines 168-171); `pollTexts` are the page-info texts read by the
successive 1-second polls after a click (lines 174-183, empty text when
the element is missing). -/
structure IterEnv (L : Type) where
  listings : List L
  nextButton : Option Bool
  pollTexts : List String

/-- The poll body of `bid_analyzer.py` lines 174-183: read the page-info
text, parse `Page (\d+)`, and if the parsed number exceeds
`current_page`, update it and stop polling. -/
def pollForAdvance (cur : Nat) : List String → Nat
  | [] => cur
  | t :: ts =>
    match parsePageNum t with
    | some n => if cur < n then n else pollForAdvance cur ts
    | none => pollForAdvance cur ts

/-- The bounded poll loop `for _ in range(10)` after a click
(`bid_analyzer.py` line 174): at most 10 reads. -/
def pollLoop (cur : Nat) (texts : List String) : Nat :=
  pollForAdvance cur (texts.take 10)

/-- The `while current_page <= total_pages` loop of
`evaluate_all_auctions` (`bid_analyzer.py` lines 149-186), iterated over
the finite observation script `iters` (the real loop has no own bound;
the script length bounds how much of the run is observed). Returns
(final `current_page`, `all_listings`, number of Next clicks). -/
def crawlLoop {L : Type} (total : Nat) :
    Nat → List L → Nat → List (IterEnv L) → Nat × List L × Nat
  | cur, acc, clicks, [] => (cur, acc, clicks)
  | cur, acc, clicks, e :: rest =>
    if total < cur then (cur, acc, clicks)
    else if total ≤ cur then (cur, acc ++ e.listings, clicks)
    else
      match e.nextButton with
      | none => (cur, acc ++ e.listings, clicks)
      | some true => (cur, acc ++ e.listings, clicks)
      | some false =>
        crawlLoop total (pollLoop cur e.pollTexts) (acc ++ e.listings)
          (clicks + 1) rest

/-- The driver-side observations of one `evaluate_all_auctions` call:
whether the initial wait for the page-info element succeeds
(`bid_analyzer.py` lines 136-140; on failure the call returns the empty
list early), the page-info text (empty when the element is missing, line
143), and the per-iteration observations. -/
structure AuctionEnv (L : Type) where
  pageInfoFound : Bool
  pageInfoText : String
  iters : List (IterEnv L)

/-- `AuctionEvaluator.evaluate_all_auctions` (`bid_analyzer.py` lines
118-192) as a function of the observation script: total pages come from
`re.search(r'Page \d+\s+of\s+(\d+)', ...)` with default 1 (lines
144-145), then the pagination loop runs. Returns the extracted listings
and the number of Next clicks. -/
def evaluate_all_auctions {L : Type} (env : AuctionEnv L) : List L × Nat :=
  if env.pageInfoFound then
    let total :=
      match parseTotalPages env.pageInfoText with
      | some n => n
      | none => 1
    let r := crawlLoop total 1 [] 0 env.iters
    (r.2.1, r.2.2)
  else ([], 0)

/-- Modelled from the spec: no partition scheduler exists in `src/` (all
four scripts drive a single sequential session); spec section 4.1 assigns
worker `i` of `totalWorkers` the page sequence
`i, i + totalWorkers, i + 2 * totalWorkers, ...` truncated at
`totalPages`, empty when `i > totalPages`. -/
def workerPages (totalWorkers totalPages i : Nat) : List Nat :=
  if i ≤ totalPages then
    List.range' i ((totalPages - i) / totalWorkers + 1) totalWorkers
  else []

/-- The composed `strptime` attempts of `main.py` lines 266-274 at the
input the examples below use: the real `datetime.strptime` parses
`"01/02/2023 03:04:05 PM"` with `'%m/%d/%Y %I:%M:%S %p'`, whose
`isoformat()` is `"2023-01-02T15:04:05"`; other inputs are left to the
`datetime.now()` fallback. -/
def strptimeEx : String → Option String := fun s =>
  if s = "01/02/2023 03:04:05 PM" then some "2023-01-02T15:04:05" else none

def nowEx : Nat → String := fun _ => "2024-01-01T00:00:00"

def swordItem : MainItem :=
  ⟨"Sword", 1, 500, "Sold", "01/02/2023 03:04:05 PM", 500⟩

def swordEntry : SaleEntry := ⟨500, "2023-01-02T15:04:05", "sale"⟩

/-- A prior checkpoint content holding one entry. -/
def priorDB : ItemDB := fun n => if n = "Sword" then [swordEntry] else []

/-- A loop iteration whose ten polls all still read `"Page 1"`: the
confirmed page never advances, exhausting the retry budget. -/
def stuckIter : IterEnv Nat :=
  ⟨[7], some false, List.replicate 10 "Page 1"⟩

/-- Two consecutive stuck iterations on a 3-page listing. -/
def stuckEnv : AuctionEnv Nat := ⟨true, "Page 1 of 3", [stuckIter, stuckIter]⟩

/-- A run whose initial page-info text matches no `Page N of M` pattern. -/
def c10Env : AuctionEnv Nat := ⟨true, "loading", [⟨[3, 4], some false, []⟩]⟩

/-- A two-sale history for the stats example. -/
def statsDB : ItemDB := fun n =>
  if n = "Sword" then [⟨10, "t1", "sale"⟩, ⟨20, "t2", "sale"⟩] else []

/-- The price column `[entry['price'] for entry in self.item_db[item_name]]`
(`cmain.py` line 233). -/
def pricesOf (l : List SaleEntry) : List Nat :=
  l.map (fun entry => entry.price)

theorem matchesTriple_eq_true (e : SaleEntry) (it : Item) :
    matchesTriple e it = true ↔
      (e.timestamp = it.datetime ∧ e.price = it.price) := by
  simp [matchesTriple]

theorem ingestOne_suffix (db : ItemDB) (it : Item) (name : String) :
    ∃ s, ingestOne db it name = db name ++ s := by
  unfold ingestOne updateDB
  by_cases h : (db it.name).any (fun e => matchesTriple e it) = true
  · exact ⟨[], by simp [h]⟩
  · by_cases hn : name = it.name
    · subst hn
      exact ⟨[⟨it.price, it.datetime, "sale"⟩], by simp [h]⟩
    · exact ⟨[], by simp [h, hn]⟩

theorem process_history_items_suffix (items : List Item) (db : ItemDB)
    (name : String) :
    ∃ s, process_history_items db items name = db name ++ s := by
  induction items generalizing db with
  | nil => exact ⟨[], by simp [process_history_items]⟩
  | cons it rest ih =>
    obtain ⟨s₁, h₁⟩ := ingestOne_suffix db it name
    obtain ⟨s₂, h₂⟩ := ih (ingestOne db it)
    refine ⟨s₁ ++ s₂, ?_⟩
    simp [process_history_items] at h₂ ⊢
    rw [h₂, h₁, List.append_assoc]

theorem processBatches_suffix (batches : List (List Item)) (db : ItemDB)
    (name : String) :
    ∃ s, processBatches db batches name = db name ++ s := by
  induction batches generalizing db with
  | nil => exact ⟨[], by simp [processBatches]⟩
  | cons b rest ih =>
    obtain ⟨s₁, h₁⟩ := process_history_items_suffix b db name
    obtain ⟨s₂, h₂⟩ := ih (process_history_items db b)
    refine ⟨s₁ ++ s₂, ?_⟩
    simp [processBatches] at h₂ ⊢
    rw [h₂, h₁, List.append_assoc]

theorem hasTriple_ingestOne (db : ItemDB) (it : Item) :
    hasTriple (ingestOne db it) it := by
  unfold hasTriple ingestOne updateDB
  by_cases h : (db it.name).any (fun e => matchesTriple e it) = true
  · rw [if_pos h]; exact h
  · rw [if_neg h]
    simp [matchesTriple]

theorem hasTriple_mono_ingestOne (db : ItemDB) (it it' : Item)
    (h : hasTriple db it) : hasTriple (ingestOne db it') it := by
  unfold hasTriple at h ⊢
  obtain ⟨s, hs⟩ := ingestOne_suffix db it' it.name
  rw [hs, List.any_append, h, Bool.true_or]

theorem hasTriple_mono_process (items : List Item) (db : ItemDB) (it : Item)
    (h : hasTriple db it) : hasTriple (process_history_items db items) it := by
  unfold hasTriple at h ⊢
  obtain ⟨s, hs⟩ := process_history_items_suffix items db it.name
  rw [hs, List.any_append, h, Bool.true_or]

theorem hasTriple_of_mem (items : List Item) (db : ItemDB) (it : Item)
    (h : it ∈ items) : hasTriple (process_history_items db items) it := by
  induction items generalizing db with
  | nil => cases h
  | cons a rest ih =>
    rcases List.mem_cons.mp h with h | h
    · subst h
      have h1 := hasTriple_ingestOne db it
      have : process_history_items db (it :: rest)
          = process_history_items (ingestOne db it) rest := by
        simp [process_history_items]
      rw [this]
      exact hasTriple_mono_process rest (ingestOne db it) it h1
    · have : process_history_items db (a :: rest)
          = process_history_items (ingestOne db a) rest := by
        simp [process_history_items]
      rw [this]
      exact ih (ingestOne db a) h

theorem process_of_all_hasTriple (items : List Item) (db : ItemDB)
    (h : ∀ it ∈ items, hasTriple db it) :
    process_history_items db items = db := by
  induction items with
  | nil => simp [process_history_items]
  | cons a rest ih =>
    have ha : hasTriple db a := h a (List.mem_cons_self a rest)
    have hstep : ingestOne db a = db := by
      unfold ingestOne
      simp [hasTriple] at ha
      simp [ha]
    have : process_history_items db (a :: rest)
        = process_history_items (ingestOne db a) rest := by
      simp [process_history_items]
    rw [this, hstep]
    exact ih (fun it hit => h it (List.mem_cons_of_mem a hit))

theorem noDupTriples_ingestOne (db : ItemDB) (it : Item)
    (h : NoDupTriples db) : NoDupTriples (ingestOne db it) := by
  intro name
  unfold ingestOne updateDB
  by_cases hc : (db it.name).any (fun e => matchesTriple e it) = true
  · rw [if_pos hc]; exact h name
  · rw [if_neg hc]
    by_cases hn : name = it.name
    · subst hn
      simp only [eq_self_iff_true, if_true]
      rw [List.pairwise_append]
      refine ⟨h it.name, List.pairwise_singleton _ _, ?_⟩
      intro a ha b hb
      rw [List.mem_singleton] at hb
      subst hb
      rw [List.any_eq_true] at hc
      push_neg at hc
      intro hab
      have hne := hc a ha
      exact hne ((matchesTriple_eq_true a it).mpr ⟨hab.1, hab.2⟩)
    · rw [if_neg hn]; exact h name

theorem noDupTriples_process (items : List Item) (db : ItemDB)
    (h : NoDupTriples db) : NoDupTriples (process_history_items db items) := by
  induction items generalizing db with
  | nil => simpa [process_history_items] using h
  | cons a rest ih =>
    have : process_history_items db (a :: rest)
        = process_history_items (ingestOne db a) rest := by
      simp [process_history_items]
    rw [this]
    exact ih (ingestOne db a) (noDupTriples_ingestOne db a h)

theorem noDupTriples_processBatches (batches : List (List Item)) (db : ItemDB)
    (h : NoDupTriples db) : NoDupTriples (processBatches db batches) := by
  induction batches generalizing db with
  | nil => simpa [processBatches] using h
  | cons b rest ih =>
    have : processBatches db (b :: rest)
        = processBatches (process_history_items db b) rest := by
      simp [processBatches]
    rw [this]
    exact ih (process_history_items db b) (noDupTriples_process b db h)

theorem pyMin_le (xs : List Nat) : ∀ x, pyMin x xs ≤ x ∧ ∀ p ∈ xs, pyMin x xs ≤ p := by
  induction xs with
  | nil => intro x; exact ⟨Nat.le_refl x, by intro p hp; cases hp⟩
  | cons y ys ih =>
    intro x
    have h := ih (Nat.min x y)
    refine ⟨Nat.le_trans h.1 (Nat.min_le_left x y), ?_⟩
    intro p hp
    rcases List.mem_cons.mp hp with hp | hp
    · subst hp
      exact Nat.le_trans h.1 (Nat.min_le_right x p)
    · exact h.2 p hp

theorem pyMin_mem (xs : List Nat) : ∀ x, pyMin x xs = x ∨ pyMin x xs ∈ xs := by
  induction xs with
  | nil => intro x; exact Or.inl rfl
  | cons y ys ih =>
    intro x
    have hstep : pyMin x (y :: ys) = pyMin (Nat.min x y) ys := rfl
    rcases ih (Nat.min x y) with h | h
    · rcases Nat.le_total x y with hxy | hxy
      · left
        rw [hstep, h]
        exact Nat.min_eq_left hxy
      · right
        have hm : x.min y = y := Nat.min_eq_right hxy
        rw [hstep, h, hm]
        exact List.mem_cons_self y ys
    · right
      rw [hstep]
      exact List.mem_cons_of_mem y h

theorem pyMax_ge (xs : List Nat) : ∀ x, x ≤ pyMax x xs ∧ ∀ p ∈ xs, p ≤ pyMax x xs := by
  induction xs with
  | nil => intro x; exact ⟨Nat.le_refl x, by intro p hp; cases hp⟩
  | cons y ys ih =>
    intro x
    have h := ih (Nat.max x y)
    refine ⟨Nat.le_trans (Nat.le_max_left x y) h.1, ?_⟩
    intro p hp
    rcases List.mem_cons.mp hp with hp | hp
    · subst hp
      exact Nat.le_trans (Nat.le_max_right x p) h.1
    · exact h.2 p hp

theorem pyMax_mem (xs : List Nat) : ∀ x, pyMax x xs = x ∨ pyMax x xs ∈ xs := by
  induction xs with
  | nil => intro x; exact Or.inl rfl
  | cons y ys ih =>
    intro x
    have hstep : pyMax x (y :: ys) = pyMax (Nat.max x y) ys := rfl
    rcases ih (Nat.max x y) with h | h
    · rcases Nat.le_total x y with hxy | hxy
      · right
        have hm : x.max y = y := Nat.max_eq_right hxy
        rw [hstep, h, hm]
        exact List.mem_cons_self y ys
      · left
        rw [hstep, h]
        exact Nat.max_eq_left hxy
    · right
      rw [hstep]
      exact List.mem_cons_of_mem y h

theorem mem_workerPages (W P i p : Nat) (hW : 1 ≤ W) :
    p ∈ workerPages W P i ↔ (∃ k, p = i + W * k) ∧ p ≤ P := by
  unfold workerPages
  by_cases hi : i ≤ P
  · rw [if_pos hi, List.mem_range']
    constructor
    · rintro ⟨k, hk, rfl⟩
      refine ⟨⟨k, rfl⟩, ?_⟩
      have hk' : k ≤ (P - i) / W := Nat.lt_succ_iff.mp hk
      have h1 : W * k ≤ W * ((P - i) / W) := Nat.mul_le_mul_left W hk'
      have h2 : W * ((P - i) / W) ≤ P - i := Nat.mul_div_le (P - i) W
      omega
    · rintro ⟨⟨k, rfl⟩, hp⟩
      refine ⟨k, ?_, rfl⟩
      have hk : W * k ≤ P - i := by omega
      have : k ≤ (P - i) / W := by
        rw [Nat.le_div_iff_mul_le hW, Nat.mul_comm]
        exact hk
      omega
  · rw [if_neg hi]
    simp only [List.not_mem_nil, false_iff]
    rintro ⟨⟨k, rfl⟩, hp⟩
    omega

theorem workerIndex_unique (W i j : Nat) (hi1 : 1 ≤ i) (hi2 : i ≤ W)
    (hj1 : 1 ≤ j) (hj2 : j ≤ W) (h : i % W = j % W) : i = j := by
  have hi' : i % W = if i < W then i else 0 := by
    by_cases hiW : i < W
    · rw [if_pos hiW, Nat.mod_eq_of_lt hiW]
    · rw [if_neg hiW]
      have hieq : i = W := by omega
      rw [hieq, Nat.mod_self]
  have hj' : j % W = if j < W then j else 0 := by
    by_cases hjW : j < W
    · rw [if_pos hjW, Nat.mod_eq_of_lt hjW]
    · rw [if_neg hjW]
      have hjeq : j = W := by omega
      rw [hjeq, Nat.mod_self]
  rw [hi', hj'] at h
  by_cases hiW : i < W <;> by_cases hjW : j < W <;>
    simp [hiW, hjW] at h <;> omega

theorem pollForAdvance_ge (ts : List String) (cur : Nat) :
    cur ≤ pollForAdvance cur ts := by
  induction ts with
  | nil => exact Nat.le_refl cur
  | cons t ts ih =>
    unfold pollForAdvance
    split
    · split
      · omega
      · exact ih
    · exact ih

theorem pollForAdvance_cases (ts : List String) (cur : Nat) :
    pollForAdvance cur ts = cur ∨
      (cur < pollForAdvance cur ts ∧
        ∃ t ∈ ts, parsePageNum t = some (pollForAdvance cur ts)) := by
  induction ts with
  | nil => exact Or.inl rfl
  | cons t ts ih =>
    unfold pollForAdvance
    split
    · rename_i n hp
      split
      · rename_i h
        exact Or.inr ⟨h, t, List.mem_cons_self t ts, hp⟩
      · rcases ih with h2 | ⟨h2, u, hu, hpu⟩
        · exact Or.inl h2
        · exact Or.inr ⟨h2, u, List.mem_cons_of_mem t hu, hpu⟩
    · rcases ih with h2 | ⟨h2, u, hu, hpu⟩
      · exact Or.inl h2
      · exact Or.inr ⟨h2, u, List.mem_cons_of_mem t hu, hpu⟩

theorem crawlLoop_fst_ge {L : Type} (iters : List (IterEnv L)) (total : Nat) :
    ∀ cur acc clicks, cur ≤ (crawlLoop total cur acc clicks iters).1 := by
  induction iters with
  | nil => intro cur acc clicks; exact Nat.le_refl cur
  | cons e rest ih =>
    intro cur acc clicks
    unfold crawlLoop
    by_cases h1 : total < cur
    · rw [if_pos h1]
    · rw [if_neg h1]
      by_cases h2 : total ≤ cur
      · rw [if_pos h2]
      · rw [if_neg h2]
        match e.nextButton with
        | none => exact Nat.le_refl cur
        | some true => exact Nat.le_refl cur
        | some false =>
          have hge : cur ≤ pollLoop cur e.pollTexts :=
            pollForAdvance_ge _ cur
          exact Nat.le_trans hge (ih (pollLoop cur e.pollTexts) _ _)

/-- Claim C1 (amended): for the deduplicating ingestors
(`process_history_items` of `cmain.py` and `headless_main.py`), any
sequence of ingest calls starting from a store whose histories hold no
duplicate (timestamp, price) pairs — in particular the empty store —
yields a store whose histories still hold none: a record is appended
only if no existing entry of that item's history has the same timestamp
and price, compared by value. (`main.py`'s `process_history_items`
violates the original claim; see the counterexample.) -/
theorem c1_dedup_invariant (db : ItemDB) (batches : List (List Item))
    (h : NoDupTriples db) : NoDupTriples (processBatches db batches) :=
  noDupTriples_processBatches batches db h

theorem c1_dedup_invariant_witness :
    NoDupTriples emptyDB ∧
      NoDupTriples (processBatches emptyDB
        [[⟨"Sword", 500, "2023-01-02T15:04:05"⟩],
          [⟨"Sword", 500, "2023-01-02T15:04:05"⟩]]) :=
  ⟨fun _ => List.Pairwise.nil,
    c1_dedup_invariant emptyDB
      [[⟨"Sword", 500, "2023-01-02T15:04:05"⟩],
        [⟨"Sword", 500, "2023-01-02T15:04:05"⟩]]
      (fun _ => List.Pairwise.nil)⟩

/-- Claim C1 counterexample: `process_history_items` of `main.py` (one of
the claim's cited ingestors) appends without any duplicate check, so
ingesting a batch that contains the same extracted item twice leaves two
records with identical (itemName, timestamp, price) in that item's
history. -/
theorem c1_counterexample :
    ¬ ((process_history_items_main strptimeEx nowEx emptyMainDB
          [swordItem, swordItem]) "Sword").Pairwise
        (fun a b => ¬(a.timestamp = b.timestamp ∧ a.price = b.price)) := by
  decide

/-- Claim C3 (amended): the deduplicating `process_history_items` of
`cmain.py`/`headless_main.py` is idempotent: applying it twice with the
same batch, from any store, equals applying it once. (`main.py`'s
variant violates the original claim; see the counterexample.) -/
theorem c3_idempotent (db : ItemDB) (items : List Item) :
    process_history_items (process_history_items db items) items
      = process_history_items db items :=
  process_of_all_hasTriple items (process_history_items db items)
    (fun it hit => hasTriple_of_mem items db it hit)

/-- Claim C3 counterexample: for `process_history_items` of `main.py`
(one of the claim's cited ingestors), ingesting the same batch twice
duplicates the item's history instead of leaving it unchanged. -/
theorem c3_counterexample :
    process_history_items_main strptimeEx nowEx
        (process_history_items_main strptimeEx nowEx emptyMainDB [swordItem])
        [swordItem] "Sword"
      ≠ process_history_items_main strptimeEx nowEx emptyMainDB
          [swordItem] "Sword" := by
  decide

/-- Claim C2 (amended): `save_item_database` writes in place: it opens
the checkpoint file with `'w'`, truncating it, and dumps the JSON
directly — there is no temporary file and no rename. A crash between the
truncating open and the completed dump leaves a truncated file, which is
not any readable checkpoint, so the prior checkpoint is destroyed rather
than left intact; only a completed call leaves the new serialization,
and a write error is merely logged. -/
theorem c2_save_crash_behavior (prior : FileState ItemDB) (db : ItemDB) :
    save_item_database_crash prior db 0 = prior ∧
      save_item_database_crash prior db 1 = FileState.truncated ∧
      (∀ k, 2 ≤ k → save_item_database_crash prior db k
        = FileState.complete db) ∧
      (∀ d : ItemDB, FileState.truncated ≠ FileState.complete d) := by
  refine ⟨rfl, rfl, ?_, ?_⟩
  · intro k hk
    obtain ⟨m, rfl⟩ : ∃ m, k = m + 2 := ⟨k - 2, by omega⟩
    rfl
  · intro d h
    cases h

theorem c2_save_crash_behavior_witness :
    save_item_database_crash (FileState.complete priorDB) emptyDB 2
      = FileState.complete emptyDB :=
  (c2_save_crash_behavior (FileState.complete priorDB) emptyDB).2.2.1 2
    (by omega)

/-- Claim C2 counterexample: crashing between the truncating
`open(db_path, 'w')` and the completed `json.dump` leaves the file
truncated — neither the prior checkpoint nor the new one — so
`save_item_database` does not satisfy the atomic write discipline the
claim describes. -/
theorem c2_counterexample :
    save_item_database_crash (FileState.complete priorDB) emptyDB 1
        = FileState.truncated ∧
      FileState.truncated ≠ FileState.complete priorDB ∧
      ¬ atomicWriteSpec save_item_database_crash := by
  refine ⟨rfl, ?_, ?_⟩
  · intro h
    cases h
  · intro h
    rcases h (FileState.complete priorDB) emptyDB 1 with h1 | h1 <;> cases h1

/-- Claim C4 (amended): when, after a click on the Next control, the
bounded poll loop (10 attempts at 1-second intervals) exhausts its budget
without the parsed page number exceeding `current_page`, the loop of
`evaluate_all_auctions` leaves `current_page` unchanged and simply
continues: the same page is extracted again and Next is clicked again.
No desync condition is logged and the crawl is not terminated (the
process does not crash, but on a permanently stuck page the loop
repeats instead of aborting). -/
theorem c4_desync_continues {L : Type} (total cur : Nat) (acc : List L)
    (clicks : Nat) (e : IterEnv L) (rest : List (IterEnv L))
    (h1 : cur < total) (h2 : e.nextButton = some false)
    (h3 : pollLoop cur e.pollTexts = cur) :
    crawlLoop total cur acc clicks (e :: rest)
      = crawlLoop total cur (acc ++ e.listings) (clicks + 1) rest := by
  have hstep : crawlLoop total cur acc clicks (e :: rest)
      = if total < cur then (cur, acc, clicks)
        else if total ≤ cur then (cur, acc ++ e.listings, clicks)
        else
          match e.nextButton with
          | none => (cur, acc ++ e.listings, clicks)
          | some true => (cur, acc ++ e.listings, clicks)
          | some false =>
            crawlLoop total (pollLoop cur e.pollTexts) (acc ++ e.listings)
              (clicks + 1) rest := rfl
  rw [hstep, if_neg (show ¬ total < cur by omega),
    if_neg (show ¬ total ≤ cur by omega), h2]
  show crawlLoop total (pollLoop cur e.pollTexts) (acc ++ e.listings)
      (clicks + 1) rest
    = crawlLoop total cur (acc ++ e.listings) (clicks + 1) rest
  rw [h3]

theorem c4_desync_continues_witness :
    crawlLoop 3 1 ([] : List Nat) 0 [stuckIter]
      = crawlLoop 3 1 ([] ++ stuckIter.listings) (0 + 1) [] :=
  c4_desync_continues 3 1 [] 0 stuckIter [] (by omega) (by decide) (by decide)

/-- Claim C4 counterexample: with a 3-page listing and polls that keep
reading `"Page 1"`, the first iteration's poll budget is exhausted with
the confirmed page still 1, yet the run clicks Next a second time and
extracts the same page again (listings `[7, 7]`, 2 clicks) instead of
logging and terminating the crawl. -/
theorem c4_counterexample :
    pollLoop 1 stuckIter.pollTexts = 1 ∧
      evaluate_all_auctions stuckEnv = ([7, 7], 2) := by
  constructor
  · decide
  · decide

/-- Claim C5: the confirmed page number of `evaluate_all_auctions` is
monotonically non-decreasing over the whole run: the poll loop parses the
integer following the literal word `"Page"` out of the indicator text and
updates `current_page` only to a strictly greater parsed value, so the
pagination loop never moves the confirmed page backward. -/
theorem c5_confirmed_page_monotone :
    (∀ (L : Type) (total cur : Nat) (acc : List L) (clicks : Nat)
        (iters : List (IterEnv L)),
      cur ≤ (crawlLoop total cur acc clicks iters).1) ∧
    (∀ (cur : Nat) (texts : List String),
      cur ≤ pollLoop cur texts ∧
        (pollLoop cur texts ≠ cur →
          cur < pollLoop cur texts ∧
            ∃ t ∈ texts.take 10,
              parsePageNum t = some (pollLoop cur texts))) ∧
    parsePageNum "Page 12 of 99" = some 12 := by
  refine ⟨?_, ?_, by decide⟩
  · intro L total cur acc clicks iters
    exact crawlLoop_fst_ge iters total cur acc clicks
  · intro cur texts
    refine ⟨pollForAdvance_ge (texts.take 10) cur, ?_⟩
    intro hne
    rcases pollForAdvance_cases (texts.take 10) cur with h | ⟨h1, t, ht, hp⟩
    · exact absurd h hne
    · exact ⟨h1, t, ht, hp⟩

theorem c5_confirmed_page_monotone_witness :
    1 ≤ pollLoop 1 ["Page 3"] ∧
      (1 < pollLoop 1 ["Page 3"] ∧
        ∃ t ∈ (["Page 3"] : List String).take 10,
          parsePageNum t = some (pollLoop 1 ["Page 3"])) :=
  ⟨(c5_confirmed_page_monotone.2.1 1 ["Page 3"]).1,
    (c5_confirmed_page_monotone.2.1 1 ["Page 3"]).2 (by decide)⟩

/-- Claim C10: when the initial page-info element is found but its text
does not match `Page \d+\s+of\s+(\d+)` (including a missing text, read as
the empty string), `total_pages` silently defaults to 1, so
`evaluate_all_auctions` extracts only the first page's listings, never
clicks the Next control, and still returns those listings. -/
theorem c10_default_single_page {L : Type} (env : AuctionEnv L)
    (e : IterEnv L) (rest : List (IterEnv L))
    (h1 : env.pageInfoFound = true)
    (h2 : parseTotalPages env.pageInfoText = none)
    (h3 : env.iters = e :: rest) :
    evaluate_all_auctions env = (e.listings, 0) := by
  unfold evaluate_all_auctions
  rw [h1, h2, h3]
  have hstep : crawlLoop 1 1 ([] : List L) 0 (e :: rest)
      = (1, [] ++ e.listings, 0) := by
    have h : crawlLoop 1 1 ([] : List L) 0 (e :: rest)
        = if 1 < 1 then ((1 : Nat), ([] : List L), (0 : Nat))
          else if 1 ≤ 1 then (1, [] ++ e.listings, 0)
          else
            match e.nextButton with
            | none => (1, [] ++ e.listings, 0)
            | some true => (1, [] ++ e.listings, 0)
            | some false =>
              crawlLoop 1 (pollLoop 1 e.pollTexts) ([] ++ e.listings) 1 rest
              := rfl
    rw [h]
    norm_num
  simp [hstep]

theorem c10_default_single_page_witness :
    evaluate_all_auctions c10Env = ([3, 4], 0) :=
  c10_default_single_page c10Env ⟨[3, 4], some false, []⟩ [] rfl
    (by decide) rfl

/-- Claim C6: for every `totalWorkers ≥ 1` and `totalPages ≥ 0`, the
partition scheduler assigns worker `i ∈ [1, totalWorkers]` exactly the
page sequence `i, i + totalWorkers, i + 2·totalWorkers, …` truncated at
`totalPages`; the workers' page sets are pairwise disjoint, their union
is exactly `{1..totalPages}`, and for `W = 3`, `P = 9` the assignments
are `{1,4,7}`, `{2,5,8}`, `{3,6,9}`. -/
theorem c6_partition (W P : Nat) (hW : 1 ≤ W) :
    (∀ i j, 1 ≤ i → i ≤ W → 1 ≤ j → j ≤ W → i ≠ j →
      ∀ p, p ∈ workerPages W P i → p ∉ workerPages W P j) ∧
    (∀ p, (1 ≤ p ∧ p ≤ P) ↔
      ∃ i, 1 ≤ i ∧ i ≤ W ∧ p ∈ workerPages W P i) ∧
    (∀ i p, p ∈ workerPages W P i → (∃ k, p = i + W * k) ∧ p ≤ P) ∧
    (workerPages 3 9 1 = [1, 4, 7] ∧ workerPages 3 9 2 = [2, 5, 8] ∧
      workerPages 3 9 3 = [3, 6, 9]) := by
  refine ⟨?_, ?_, ?_, by decide, by decide, by decide⟩
  · intro i j hi1 hi2 hj1 hj2 hij p hpi hpj
    rw [mem_workerPages W P i p hW] at hpi
    rw [mem_workerPages W P j p hW] at hpj
    obtain ⟨⟨k, hk⟩, hpP⟩ := hpi
    obtain ⟨⟨l, hl⟩, _⟩ := hpj
    apply hij
    apply workerIndex_unique W i j hi1 hi2 hj1 hj2
    have h1 : (i + W * k) % W = i % W := Nat.add_mul_mod_self_left i W k
    have h2 : (j + W * l) % W = j % W := Nat.add_mul_mod_self_left j W l
    rw [← h1, ← h2, ← hk, ← hl]
  · intro p
    constructor
    · rintro ⟨hp1, hpP⟩
      refine ⟨(p - 1) % W + 1, by omega, ?_, ?_⟩
      · have := Nat.mod_lt (p - 1) (show 0 < W by omega)
        omega
      · rw [mem_workerPages W P _ p hW]
        refine ⟨⟨(p - 1) / W, ?_⟩, hpP⟩
        have := Nat.mod_add_div (p - 1) W
        omega
    · rintro ⟨i, hi1, hiW, hp⟩
      rw [mem_workerPages W P i p hW] at hp
      obtain ⟨⟨k, rfl⟩, hpP⟩ := hp
      exact ⟨by omega, hpP⟩
  · intro i p hp
    exact (mem_workerPages W P i p hW).mp hp

theorem c6_partition_witness :
    workerPages 3 9 1 = [1, 4, 7] ∧ workerPages 3 9 2 = [2, 5, 8] ∧
      workerPages 3 9 3 = [3, 6, 9] :=
  (c6_partition 3 9 (by omega)).2.2.2

/-- Claim C7: `parse_time_left` maps `"1h30m"` to 90, `"45m"` to 45,
`"2h"` to 120, `"-"` to 0 and `"very short"` to 0 (case-insensitively);
any text with neither an hour nor a minute component that `int()` cannot
parse gives 0 with a logged warning; and whenever an hour and/or minute
component matches, the result is hours·60 + minutes. -/
theorem c7_parse_time_left :
    parse_time_left "1h30m" = 90 ∧
    parse_time_left "45m" = 45 ∧
    parse_time_left "2h" = 120 ∧
    parse_time_left "-" = 0 ∧
    parse_time_left "very short" = 0 ∧
    parse_time_left "Very Short" = 0 ∧
    (∀ s, searchNumUnit 'h' (pyLower (pyStrip s)) = none →
      searchNumUnit 'm' (pyLower (pyStrip s)) = none →
      pyInt (pyLower (pyStrip s)) = none →
      parse_time_left s = 0) ∧
    (∀ s, ((searchNumUnit 'h' (pyLower (pyStrip s))).isSome ∨
        (searchNumUnit 'm' (pyLower (pyStrip s))).isSome) →
      parse_time_left s
        = ((searchNumUnit 'h' (pyLower (pyStrip s))).getD 0 : Int) * 60
          + ((searchNumUnit 'm' (pyLower (pyStrip s))).getD 0 : Int)) := by
  refine ⟨by decide, by decide, by decide, by decide, by decide, by decide,
    ?_, ?_⟩
  · intro s h1 h2 h3
    simp only [parse_time_left]
    by_cases hs : pyLower (pyStrip s) = "-" ∨ pyLower (pyStrip s) = "very short"
    · rw [if_pos hs]
    · rw [if_neg hs, h1, h2, h3]
      simp
  · intro s hsome
    simp only [parse_time_left]
    by_cases hs : pyLower (pyStrip s) = "-" ∨ pyLower (pyStrip s) = "very short"
    · exfalso
      rcases hs with hs | hs <;> rw [hs] at hsome <;>
        rcases hsome with h | h <;> revert h <;> decide
    · rw [if_neg hs]
      have hcond : ((searchNumUnit 'h' (pyLower (pyStrip s))).isNone &&
          (searchNumUnit 'm' (pyLower (pyStrip s))).isNone) = false := by
        rcases hsome with h | h
        · obtain ⟨v, hv⟩ := Option.isSome_iff_exists.mp h
          rw [hv]
          simp
        · obtain ⟨v, hv⟩ := Option.isSome_iff_exists.mp h
          rw [hv]
          simp
      rw [hcond]
      simp

theorem c7_parse_time_left_witness :
    parse_time_left "soon" = 0 ∧ parse_time_left "2h5m" = 125 :=
  ⟨c7_parse_time_left.2.2.2.2.2.2.1 "soon" (by decide) (by decide) (by decide),
    by
      rw [c7_parse_time_left.2.2.2.2.2.2.2 "2h5m" (Or.inl (by decide))]
      decide⟩

/-- Claim C8 (amended): entries present in a prior database file that
loads successfully are preserved by a run: when nothing is scraped the
guarded save never runs and the file is untouched, and otherwise
`process_history_items` only appends, so after load, ingestion and
`save_item_database` every prior (itemName, record) entry is still
present. (When loading fails and something is scraped, the database is
rebuilt from empty and the save overwrites the prior file, losing its
entries; see the counterexample.) -/
theorem c8_preserved_when_load_succeeds (db0 : ItemDB)
    (batches : List (List Item)) (name : String) (e : SaleEntry)
    (h : e ∈ db0 name) :
    ∃ db1, runAndSaveDatabase (FileState.complete db0) false batches
        = FileState.complete db1 ∧ e ∈ db1 name := by
  unfold runAndSaveDatabase
  by_cases hb : batches.flatten = []
  · rw [if_pos hb]
    exact ⟨db0, rfl, h⟩
  · rw [if_neg hb]
    refine ⟨processBatches db0 batches, rfl, ?_⟩
    obtain ⟨s, hs⟩ := processBatches_suffix batches db0 name
    rw [hs]
    exact List.mem_append_left s h

theorem c8_preserved_when_load_succeeds_witness :
    ∃ db1, runAndSaveDatabase (FileState.complete priorDB) false
        [[⟨"Shield", 9, "t9"⟩]]
        = FileState.complete db1 ∧ swordEntry ∈ db1 "Sword" :=
  c8_preserved_when_load_succeeds priorDB [[⟨"Shield", 9, "t9"⟩]] "Sword"
    swordEntry (by decide)

/-- Claim C8 counterexample: when loading the prior file fails (any
exception in `load_item_database`, e.g. an I/O error) and the run scrapes
at least one item — so the guarded `save_item_database` does run — the
run starts from an empty `defaultdict` and the save overwrites the file:
the prior entry, untouched by the run, is gone from the saved mapping. -/
theorem c8_counterexample :
    runAndSaveDatabase (FileState.complete priorDB) true
        [[⟨"Shield", 9, "t9"⟩]]
        = FileState.complete (processBatches emptyDB [[⟨"Shield", 9, "t9"⟩]]) ∧
      swordEntry ∈ priorDB "Sword" ∧
      swordEntry ∉ (processBatches emptyDB [[⟨"Shield", 9, "t9"⟩]]) "Sword" := by
  refine ⟨rfl, by decide, by decide⟩

/-- Claim C9: `get_item_stats` returns `None` exactly when the item name
is absent from the database or its history is empty (both read as an
empty lookup of the `defaultdict`); otherwise the returned record's
`average_price` is the sum of the stored prices divided by their count,
`median_price` is their statistical median, `min_price` and `max_price`
are their minimum and maximum (attained values bounding every price), and
`last_sold` is the last entry of the item's history. -/
theorem c9_get_item_stats (db : ItemDB) (name : String) :
    (get_item_stats db name = none ↔ db name = []) ∧
    (∀ s, get_item_stats db name = some s →
      s.average_price
          = ((pricesOf (db name)).sum : ℚ)
            / ((pricesOf (db name)).length : ℚ) ∧
      s.median_price = pyMedian (pricesOf (db name)) ∧
      s.min_price ∈ pricesOf (db name) ∧
      (∀ p ∈ pricesOf (db name), s.min_price ≤ p) ∧
      s.max_price ∈ pricesOf (db name) ∧
      (∀ p ∈ pricesOf (db name), p ≤ s.max_price) ∧
      (db name).getLast? = some s.last_sold) := by
  cases hdb : db name with
  | nil =>
    constructor
    · simp [get_item_stats, hdb]
    · intro s hs
      simp [get_item_stats, hdb] at hs
  | cons e es =>
    constructor
    · simp [get_item_stats, hdb]
    · intro s hs
      simp only [get_item_stats, hdb] at hs
      rw [Option.some_inj] at hs
      subst hs
      refine ⟨rfl, rfl, ?_, ?_, ?_, ?_, ?_⟩
      · show pyMin e.price (es.map (fun entry => entry.price))
            ∈ pricesOf (e :: es)
        rcases pyMin_mem (es.map (fun entry => entry.price)) e.price with h | h
        · rw [h]
          exact List.mem_cons_self _ _
        · exact List.mem_cons_of_mem _ h
      · intro p hp
        show pyMin e.price (es.map (fun entry => entry.price)) ≤ p
        rcases List.mem_cons.mp hp with hp | hp
        · subst hp
          exact (pyMin_le (es.map (fun entry => entry.price)) e.price).1
        · exact (pyMin_le (es.map (fun entry => entry.price)) e.price).2 p hp
      · show pyMax e.price (es.map (fun entry => entry.price))
            ∈ pricesOf (e :: es)
        rcases pyMax_mem (es.map (fun entry => entry.price)) e.price with h | h
        · rw [h]
          exact List.mem_cons_self _ _
        · exact List.mem_cons_of_mem _ h
      · intro p hp
        show p ≤ pyMax e.price (es.map (fun entry => entry.price))
        rcases List.mem_cons.mp hp with hp | hp
        · subst hp
          exact (pyMax_ge (es.map (fun entry => entry.price)) e.price).1
        · exact (pyMax_ge (es.map (fun entry => entry.price)) e.price).2 p hp
      · exact List.getLast?_eq_getLast _ _

theorem c9_get_item_stats_witness :
    get_item_stats statsDB "Sword"
        = some ⟨15, 15, 10, 20, ⟨20, "t2", "sale"⟩⟩ ∧
      (statsDB "Sword").getLast?
        = some ((⟨15, 15, 10, 20, ⟨20, "t2", "sale"⟩⟩ : ItemStats).last_sold) := by
  have h : get_item_stats statsDB "Sword"
      = some ⟨15, 15, 10, 20, ⟨20, "t2", "sale"⟩⟩ := by
    have hdb : statsDB "Sword" = [⟨10, "t1", "sale"⟩, ⟨20, "t2", "sale"⟩] := by
      decide
    simp only [get_item_stats, hdb]
    rw [Option.some_inj]
    refine ItemStats.ext ?_ ?_ (by decide) (by decide) (by decide)
    · show ((30 : Nat) : ℚ) / ((2 : Nat) : ℚ) = 15
      norm_num
    · have hmed : pyMedian [10, 20] = (((10 : Nat) : ℚ) + ((20 : Nat) : ℚ)) / 2 :=
        rfl
      show pyMedian [10, 20] = 15
      rw [hmed]
      norm_num
  exact ⟨h, ((c9_get_item_stats statsDB "Sword").2 _ h).2.2.2.2.2.2⟩
